import Mathlib

/-!
# Verification of the duplicate-counting binary search tree (`BSTree`)

Shallow embedding of the repository's BST (`src/BSTree/...`), its traversal
iterator, and the pool-backed allocator (`Memory_Pool` / `BSTree_Allocator`).
The element type `T` is instantiated at `int`, modelled as `Int`; `size_t`
counters are modelled as `Nat` with an explicit wrap at `2 ^ 64` where the
source can underflow.  Each definition mirrors one source function; the
version (1 = simple, 2 = error handling, 3 = allocators) is named in its
doc comment.  Versions 1, 2 and 3 share the same recursive `Insert`
comparison logic, `Search` and `Remove` bodies, so those are embedded once.
-/

namespace BSTreeSpec

/-- `BSTree<T>::Node` (all versions): value `data_`, children `left_` /
`right_`, and the duplicate counter `count_`.  The constructor
`Node(value)` initialises `count_` to `0`, so `count_` counts the extra
duplicates beyond the node's first occurrence. -/
inductive Tree where
  | nil : Tree
  | node (left : Tree) (data : Int) (count : Nat) (right : Tree) : Tree
deriving Repr, DecidableEq

/-- `new Node(value)`: `data_(value), left_(nullptr), right_(nullptr), count_(0)`. -/
def newNode (value : Int) : Tree :=
  Tree.node Tree.nil value 0 Tree.nil

/-- Recursive `BSTree<T>::Insert(Node*, T)` of version 1 (the comparison
logic is identical in versions 2 and 3): descend left on `value < data_`,
right on `value > data_`, otherwise increment the duplicate counter
`count_`; a null position becomes a fresh node. -/
def insertNode : Tree → Int → Tree
  | Tree.nil, value => newNode value
  | Tree.node l d c r, value =>
    if value < d then Tree.node (insertNode l value) d c r
    else if value > d then Tree.node l d c (insertNode r value)
    else Tree.node l d (c + 1) r

/-- Recursive `BSTree<T>::Search(Node*, T)` (identical in all versions):
`false` at null, `true` on an equal value, otherwise descend by comparison. -/
def searchNode : Tree → Int → Bool
  | Tree.nil, _ => false
  | Tree.node l d _ r, value =>
    if d = value then true
    else if value < d then searchNode l value
    else searchNode r value

/-- Recursive `BSTree<T>::Remove(Node*, T)` (identical body in versions 1,
2 and 3).  The second component makes the member write
`--total_elements_count_` explicit: it is `true` exactly when the source
decrements the member on this call.  On a match:
* `count_ > 1`: decrement `count_`, keep the node;
* otherwise the source runs `temp = ...; delete node; return temp;`
  unconditionally — a node with two children yields `temp == nullptr`, so
  the whole subtree is replaced by null.  The in-order-successor code
  after that `return` (source lines 178–182 of version 1) is unreachable
  and therefore absent here. -/
def removeNode : Tree → Int → Tree × Bool
  | Tree.nil, _ => (Tree.nil, false)
  | Tree.node l d c r, value =>
    if value < d then
      let p := removeNode l value
      (Tree.node p.1 d c r, p.2)
    else if value > d then
      let p := removeNode r value
      (Tree.node l d c p.1, p.2)
    else
      if c > 1 then (Tree.node l d (c - 1) r, true)
      else
        match l, r with
        | Tree.nil, _ => (r, true)
        | _, Tree.nil => (l, true)
        | _, _ => (Tree.nil, true)

/-- `size_t` modulus: the counters are 64-bit unsigned. -/
def sizeTMod : Nat := 2 ^ 64

/-- `--x` on a `size_t`: wraps to `2 ^ 64 - 1` on underflow. -/
def decSizeT (a : Nat) : Nat := (a + (sizeTMod - 1)) % sizeTMod

/-- The `BSTree<T>` object state: `root_`, `duplicate_elements_count_`,
`total_elements_count_` (trailing underscores dropped). -/
structure BSTreeState where
  root : Tree
  duplicate_elements_count : Nat
  total_elements_count : Nat
deriving Repr, DecidableEq

/-- Default constructor `BSTree()`:
`root_(nullptr), duplicate_elements_count_(0), total_elements_count_(0)`. -/
def initState : BSTreeState :=
  { root := Tree.nil, duplicate_elements_count := 0, total_elements_count := 0 }

/-- Public `BSTree<T>::Insert(T)` of version 1: `root_ = Insert(root_, value);`.
No counter is touched (the recursive `Insert` never writes
`total_elements_count_` or `duplicate_elements_count_` in any version). -/
def BSTree.Insert (s : BSTreeState) (value : Int) : BSTreeState :=
  { s with root := insertNode s.root value }

/-- Public `BSTree<T>::Search(T)` (all versions): `Search(root_, value)`. -/
def BSTree.Search (s : BSTreeState) (value : Int) : Bool :=
  searchNode s.root value

/-- Public `BSTree<T>::Remove(T)` of version 1: `root_ = Remove(root_, value);`
with the member decrement of `total_elements_count_` applied when the
recursive call performed it. -/
def BSTree.Remove (s : BSTreeState) (value : Int) : BSTreeState :=
  let p := removeNode s.root value
  { s with
    root := p.1
    total_elements_count :=
      if p.2 then decSizeT s.total_elements_count else s.total_elements_count }

/-- Fold a list of insertions over a default-constructed tree (the demo
drivers insert one value per call). -/
def buildState (vs : List Int) : BSTreeState :=
  vs.foldl BSTree.Insert initState

/-- In-order value sequence of a tree: left subtree, node, right subtree
(the sequence `Print_in_order` / the iterator are specified to produce);
duplicate-holding nodes contribute their value once. -/
def inorderTree : Tree → List Int
  | Tree.nil => []
  | Tree.node l d _ r => inorderTree l ++ d :: inorderTree r

/-! ## Version 2 — error handling -/

/-- The exceptions thrown by version 2 of the tree:
`std::invalid_argument` on inserting the sentinel value,
`std::runtime_error("Элемент не найден в дереве")` on removing an absent
value, and `std::runtime_error("Слишком глубокая рекурсия")` from the
insertion depth guard. -/
inductive TreeErr where
  | invalidArgument : TreeErr
  | notFound : TreeErr
  | excessiveRecursion : TreeErr
deriving Repr, DecidableEq

/-- `MAX_DEPTH = 1000` (version 1/2 header). -/
def MAX_DEPTH : Nat := 1000

/-- Recursive `BSTree<T>::Insert(Node*, T, size_t depth)` of version 2:
guard `if (depth > MAX_DEPTH) throw std::runtime_error(...)`, then the
usual descent.  The source's recursive calls are
`Insert(node->left_, value)` and `Insert(node->right_, value)` — the
`depth` argument is *not* passed, so each recursive call receives the
default `0`; the embedding reproduces that literally. -/
def insertNodeV2 (t : Tree) (value : Int) (depth : Nat) : Except TreeErr Tree :=
  if depth > MAX_DEPTH then Except.error TreeErr.excessiveRecursion
  else
    match t with
    | Tree.nil => Except.ok (newNode value)
    | Tree.node l d c r =>
      if value < d then (insertNodeV2 l value 0).map (fun l2 => Tree.node l2 d c r)
      else if value > d then (insertNodeV2 r value 0).map (fun r2 => Tree.node l d c r2)
      else Except.ok (Tree.node l d (c + 1) r)

/-- Public `BSTree<T>::Insert(T)` of version 2, with the state after the
call paired with the exception (if one was thrown): the sentinel check
`if (value == T()) throw std::invalid_argument(...)` precedes any
mutation (`T = int`, so `T()` is `0`); then `root_ = Insert(root_, value)`. -/
def BSTree.InsertV2 (s : BSTreeState) (value : Int) : BSTreeState × Option TreeErr :=
  if value = 0 then (s, some TreeErr.invalidArgument)
  else
    match insertNodeV2 s.root value 0 with
    | Except.ok t => ({ s with root := t }, none)
    | Except.error e => (s, some e)

/-- Public `BSTree<T>::Remove(T)` of version 2, state paired with the
exception: `if (!Search(value)) throw std::runtime_error(...)` precedes
any mutation; on a present value the removal proceeds as in version 1. -/
def BSTree.RemoveV2 (s : BSTreeState) (value : Int) : BSTreeState × Option TreeErr :=
  if searchNode s.root value then (BSTree.Remove s value, none)
  else (s, some TreeErr.notFound)

/-! ## Traversal iterator (`Tree_Iterator`, identical in all versions)

The iterator holds a stack of `Node*` (`Node_Stack`) and a current node
pointer (`current_`).  After a node is pushed, only its `data_`, `count_`
and `right_` members are ever read (its left spine is pushed above it),
so a stack entry is modelled as that triple; `current_ = nullptr` — the
exhausted state — is `none`. -/

/-- A stack entry / the current node: the node's `data_`, `count_` and
`right_` subtree. -/
abbrev IterEntry := Int × Nat × Tree

/-- `Tree_Iterator::Push_left(Node*)`: push the node, then descend to its
left child, until null.  The list head is the stack top. -/
def pushLeft : Tree → List IterEntry → List IterEntry
  | Tree.nil, s => s
  | Tree.node l d c r, s => pushLeft l ((d, c, r) :: s)

/-- Iterator state: `Node_Stack` and `current_`. -/
structure TreeIter where
  nodeStack : List IterEntry
  current : Option IterEntry
deriving Repr, DecidableEq

/-- `Tree_Iterator(Node*)` — the constructor `begin()` uses with `root_`:
`Push_left(node)`, then pop the stack top into `current_` if the stack is
non-empty (otherwise `current_` stays null). -/
def iterBegin (t : Tree) : TreeIter :=
  match pushLeft t [] with
  | [] => { nodeStack := [], current := none }
  | e :: rest => { nodeStack := rest, current := some e }

/-- Result of one iterator access: a value, a thrown
`std::out_of_range`, or an unchecked null-pointer dereference (which has
no defined outcome in the source). -/
inductive IterAccess (α : Type) where
  | ok (a : α) : IterAccess α
  | outOfRange : IterAccess α
  | undefinedBehavior : IterAccess α
deriving Repr, DecidableEq

/-- `Tree_Iterator::operator*`: the body is the single statement
`return current_->data_;` with no emptiness check — when `current_` is
null this dereferences a null pointer (no exception is thrown on this
path), which the embedding marks as `undefinedBehavior`. -/
def iterDeref (it : TreeIter) : IterAccess Int :=
  match it.current with
  | none => IterAccess.undefinedBehavior
  | some (d, _, _) => IterAccess.ok d

/-- `Tree_Iterator::operator++`: throws `std::out_of_range` when
`current_` is null; otherwise pushes the left spine of `current_->right_`
(the source guards the call with `right_ != nullptr`, which is equivalent
because `Push_left` of a null node pushes nothing) and pops the stack top
into `current_`, or sets `current_` to null when the stack is empty. -/
def iterNext (it : TreeIter) : IterAccess TreeIter :=
  match it.current with
  | none => IterAccess.outOfRange
  | some (_, _, r) =>
    match pushLeft r it.nodeStack with
    | [] => IterAccess.ok { nodeStack := [], current := none }
    | e :: rest => IterAccess.ok { nodeStack := rest, current := some e }

/-- Number of nodes of a tree. -/
def treeSize : Tree → Nat
  | Tree.nil => 0
  | Tree.node l _ _ r => treeSize l + 1 + treeSize r

/-- Termination measure for draining a stack: each entry still costs its
own visit plus its whole right subtree. -/
def stackWeight (s : List IterEntry) : Nat :=
  (s.map (fun e => 1 + treeSize e.2.2)).sum

theorem stackWeight_pushLeft (t : Tree) (s : List IterEntry) :
    stackWeight (pushLeft t s) = treeSize t + stackWeight s := by
  induction t generalizing s with
  | nil => simp [pushLeft, treeSize]
  | node l d c r ihl ihr =>
    simp only [pushLeft, treeSize]
    rw [ihl]
    simp only [stackWeight, List.map_cons, List.sum_cons]
    omega

/-- The sequence of values an iterator whose stack is `s` (with the stack
top already popped into `current_`) still yields: pop `(d, c, r)`, yield
`d`, push the left spine of `r`, continue. -/
def drainStack : List IterEntry → List Int
  | [] => []
  | (d, _, r) :: rest => d :: drainStack (pushLeft r rest)
termination_by s => stackWeight s
decreasing_by
  rw [stackWeight_pushLeft]
  simp only [stackWeight, List.map_cons, List.sum_cons]
  omega

/-- The full sequence of values the iterator yields from its current
state until exhaustion (each value obtained by `operator*`, each step by
`operator++`; see `iterToList_exhausted` and `iterToList_step`). -/
def iterToList (it : TreeIter) : List Int :=
  match it.current with
  | none => []
  | some e => drainStack (e :: it.nodeStack)

/-- The value sequence obtained by iterating from `begin()` until the
exhausted state. -/
def iterSeq (t : Tree) : List Int :=
  iterToList (iterBegin t)

/-! ## Iterator traversal lemmas -/

theorem drainStack_pushLeft (t : Tree) :
    ∀ s : List IterEntry, drainStack (pushLeft t s) = inorderTree t ++ drainStack s := by
  induction t with
  | nil => intro s; simp [pushLeft, inorderTree]
  | node l d c r ihl ihr =>
    intro s
    simp only [pushLeft, inorderTree]
    rw [ihl, drainStack, ihr, List.append_assoc, List.cons_append]

/-- An exhausted iterator yields nothing further. -/
theorem iterToList_exhausted (it : TreeIter) (h : it.current = none) :
    iterToList it = [] := by
  simp [iterToList, h]

/-- One step of iteration: a positioned iterator dereferences to its
current value, advances successfully, and its yield sequence is that
value followed by the successor state's yield sequence. -/
theorem iterToList_step (it : TreeIter) (d : Int) (c : Nat) (r : Tree)
    (h : it.current = some (d, c, r)) :
    iterDeref it = IterAccess.ok d ∧
    ∃ it2, iterNext it = IterAccess.ok it2 ∧ iterToList it = d :: iterToList it2 := by
  obtain ⟨stack, cur⟩ := it
  simp only at h
  subst h
  refine ⟨rfl, ?_⟩
  simp only [iterNext, iterToList, drainStack]
  cases hp : pushLeft r stack with
  | nil => exact ⟨_, rfl, by simp [iterToList, drainStack]⟩
  | cons e rest => exact ⟨_, rfl, by simp [iterToList]⟩

theorem iterSeq_eq_inorder (t : Tree) : iterSeq t = inorderTree t := by
  have hbegin : iterToList (iterBegin t) = drainStack (pushLeft t []) := by
    unfold iterBegin
    cases hp : pushLeft t [] with
    | nil => simp [iterToList, drainStack]
    | cons e rest => simp [iterToList]
  have hdrain := drainStack_pushLeft t []
  simp only [iterSeq, hbegin, hdrain, drainStack, List.append_nil]

/-! ## BST ordering invariant (following the standard `ForallTree` / `BST`
development for binary search trees) -/

/-- `p` holds at the value of every node of `t`. -/
inductive ForallTree (p : Int → Prop) : Tree → Prop
  | nil : ForallTree p Tree.nil
  | node {l r : Tree} {d : Int} {c : Nat} :
      ForallTree p l → p d → ForallTree p r → ForallTree p (Tree.node l d c r)

/-- The binary-search-tree invariant: values in the left subtree are
strictly less, values in the right subtree strictly greater, recursively. -/
inductive BSTinv : Tree → Prop
  | nil : BSTinv Tree.nil
  | node {l r : Tree} {d : Int} {c : Nat} :
      ForallTree (fun x => x < d) l → ForallTree (fun x => d < x) r →
      BSTinv l → BSTinv r → BSTinv (Tree.node l d c r)

theorem forallTree_insert_preserved {p : Int → Prop} {t : Tree} (h : ForallTree p t)
    {v : Int} (hv : p v) : ForallTree p (BSTreeSpec.insertNode t v) := by
  induction h with
  | nil => exact ForallTree.node ForallTree.nil hv ForallTree.nil
  | @node l r d c hl hd hr ihl ihr =>
    by_cases h1 : v < d
    · simpa [BSTreeSpec.insertNode, h1] using ForallTree.node ihl hd hr
    · by_cases h2 : v > d
      · simpa [BSTreeSpec.insertNode, h1, h2] using ForallTree.node hl hd ihr
      · simpa [BSTreeSpec.insertNode, h1, h2] using ForallTree.node hl hd hr

theorem bstinv_insert_preserved {t : Tree} (h : BSTinv t) (v : Int) :
    BSTinv (BSTreeSpec.insertNode t v) := by
  induction h with
  | nil => exact BSTinv.node ForallTree.nil ForallTree.nil BSTinv.nil BSTinv.nil
  | @node l r d c hl hr bl br ihl ihr =>
    by_cases h1 : v < d
    · simpa [BSTreeSpec.insertNode, h1] using
        BSTinv.node (forallTree_insert_preserved hl h1) hr ihl br
    · by_cases h2 : v > d
      · simpa [BSTreeSpec.insertNode, h1, h2] using
          BSTinv.node hl (forallTree_insert_preserved hr h2) bl ihr
      · simpa [BSTreeSpec.insertNode, h1, h2] using BSTinv.node hl hr bl br

theorem forall_mem_inorder {p : Int → Prop} {t : Tree} (h : ForallTree p t) :
    ∀ x ∈ inorderTree t, p x := by
  induction h with
  | nil => simp [inorderTree]
  | @node l r d c hl hd hr ihl ihr =>
    intro x hx
    simp only [inorderTree, List.mem_append, List.mem_cons] at hx
    rcases hx with hx | rfl | hx
    exacts [ihl x hx, hd, ihr x hx]

theorem sorted_inorder {t : Tree} (h : BSTinv t) :
    (inorderTree t).Pairwise (· < ·) := by
  induction h with
  | nil => simp [inorderTree]
  | @node l r d c hl hr bl br ihl ihr =>
    simp only [inorderTree]
    rw [List.pairwise_append]
    refine ⟨ihl, ?_, ?_⟩
    · rw [List.pairwise_cons]
      exact ⟨fun y hy => forall_mem_inorder hr y hy, ihr⟩
    · intro x hx y hy
      rcases List.mem_cons.mp hy with rfl | hy
      · exact forall_mem_inorder hl x hx
      · exact lt_trans (forall_mem_inorder hl x hx) (forall_mem_inorder hr y hy)

theorem mem_inorder_insertNode (t : Tree) (v x : Int) :
    x ∈ inorderTree (insertNode t v) ↔ x = v ∨ x ∈ inorderTree t := by
  induction t with
  | nil => simp [insertNode, newNode, inorderTree]
  | node l d c r ihl ihr =>
    by_cases h1 : v < d
    · simp only [insertNode, h1, if_true, inorderTree, List.mem_append,
        List.mem_cons, ihl]
      tauto
    · by_cases h2 : v > d
      · simp only [insertNode, h1, if_false, h2, if_true, inorderTree,
          List.mem_append, List.mem_cons, ihr]
        tauto
      · have hvd : v = d := le_antisymm (not_lt.mp h2) (not_lt.mp h1)
        subst hvd
        simp only [insertNode, h1, h2, if_false, inorderTree, List.mem_append,
          List.mem_cons]
        tauto

theorem bst_foldl_insertNode (vs : List Int) :
    ∀ {t : Tree}, BSTinv t → BSTinv (vs.foldl insertNode t) := by
  induction vs with
  | nil => intro t h; simpa using h
  | cons v vs ih =>
    intro t h
    simpa [List.foldl_cons] using ih (bstinv_insert_preserved h v)

theorem mem_foldl_insertNode (vs : List Int) :
    ∀ (t : Tree) (x : Int),
      x ∈ inorderTree (vs.foldl insertNode t) ↔ x ∈ vs ∨ x ∈ inorderTree t := by
  induction vs with
  | nil => intro t x; simp
  | cons v vs ih =>
    intro t x
    simp only [List.foldl_cons, ih, mem_inorder_insertNode, List.mem_cons]
    tauto

theorem buildState_root (vs : List Int) :
    (buildState vs).root = vs.foldl insertNode Tree.nil := by
  have haux : ∀ (ws : List Int) (s : BSTreeState),
      (ws.foldl BSTree.Insert s).root = ws.foldl insertNode s.root := by
    intro ws
    induction ws with
    | nil => intro s; rfl
    | cons w ws ih => intro s; simpa [List.foldl_cons, BSTree.Insert] using ih _
  simpa [buildState] using haux vs initState

/-- The version-2 recursive `Insert` is the unguarded version-1 insertion:
because every recursive call passes `depth = 0` (the default argument),
the condition `depth > MAX_DEPTH` is false at every level of every
descent that starts — as all call sites do — at depth `0`, so no
excessive-recursion error is ever produced. -/
theorem insertNodeV2_ok (t : Tree) (value : Int) :
    insertNodeV2 t value 0 = Except.ok (insertNode t value) := by
  induction t with
  | nil => rfl
  | node l d c r ihl ihr =>
    rw [insertNodeV2]
    simp only [MAX_DEPTH, Nat.not_lt_zero, gt_iff_lt, if_false]
    by_cases h1 : value < d
    · simp [h1, ihl, insertNode, Except.map]
    · by_cases h2 : value > d
      · simp [h1, h2, ihr, insertNode, Except.map]
      · simp [h1, h2, insertNode]

/-! ## Copy, and operation sequences (for the counter invariants) -/

/-- Recursive `BSTree<T>::Copy(Node*)` (version 1): allocate a new node
with the same value, copy both subtrees, carry over `count_`. -/
def copyTree : Tree → Tree
  | Tree.nil => Tree.nil
  | Tree.node l d c r => Tree.node (copyTree l) d c (copyTree r)

/-- Copy constructor `BSTree(const BSTree&)`: copies the root via `Copy`
and both counter fields verbatim from `other`. -/
def BSTree.copyCtor (other : BSTreeState) : BSTreeState :=
  { root := copyTree other.root
    duplicate_elements_count := other.duplicate_elements_count
    total_elements_count := other.total_elements_count }

/-- Move constructor `BSTree(BSTree&&)`: takes the root pointer and both
counter fields verbatim (the moved-from object's fields are untouched
except `root_ = nullptr`). -/
def BSTree.moveCtor (temp : BSTreeState) : BSTreeState :=
  { root := temp.root
    duplicate_elements_count := temp.duplicate_elements_count
    total_elements_count := temp.total_elements_count }

/-- A mutating call on the version-1 tree. -/
inductive TreeOp where
  | ins (v : Int) : TreeOp
  | rem (v : Int) : TreeOp
deriving Repr, DecidableEq

/-- Apply one operation to the tree state. -/
def applyOp (s : BSTreeState) : TreeOp → BSTreeState
  | TreeOp.ins v => BSTree.Insert s v
  | TreeOp.rem v => BSTree.Remove s v

/-- Run a sequence of operations from a given state. -/
def runOps (s : BSTreeState) (ops : List TreeOp) : BSTreeState :=
  ops.foldl applyOp s

/-! ## Memory pool and pooled allocator
(`src/unnamed/part_001`: `Memory_Pool<T>` and the pool-backed
`BSTree_Allocator<T>`).  Slots are modelled by numeric ids; a block of
`block_count_` fresh slots is threaded in ascending id order onto the
front of the free list, exactly as `Allocate_Block` links
`new_block[i].next = &new_block[i+1]` and chains the last entry to the
old free list.  Blocks are never freed, so only the free list and the
supply of fresh ids need to be tracked.  The null-pointer check in
`Memory_Pool::Deallocate` is not modelled: slot ids in the model are
always ids previously handed out, never null. -/

structure Memory_Pool where
  free_list : List Nat
  next_slot : Nat
  block_count : Nat
deriving Repr, DecidableEq

/-- Errors of the pool and its allocator: `std::invalid_argument` for a
zero block count at construction, and the `std::bad_alloc` thrown by
`BSTree_Allocator::Allocate` when the request is not for exactly one
node (the invalid-allocation-size failure). -/
inductive AllocErr where
  | zeroBlockCount : AllocErr
  | invalidAllocationSize : AllocErr
deriving Repr, DecidableEq

/-- `Memory_Pool(size_t block_count = 64)`: rejects `block_count == 0`
with `std::invalid_argument`, otherwise starts with an empty free list. -/
def Memory_Pool.make (block_count : Nat) : Except AllocErr Memory_Pool :=
  if block_count = 0 then Except.error AllocErr.zeroBlockCount
  else Except.ok { free_list := [], next_slot := 0, block_count := block_count }

/-- `Memory_Pool::Allocate_Block()`: carve `block_count_` fresh slots and
thread them, in order, onto the front of the existing free list. -/
def Memory_Pool.Allocate_Block (p : Memory_Pool) : Memory_Pool :=
  { p with
    free_list := (List.range p.block_count).map (fun i => p.next_slot + i) ++ p.free_list
    next_slot := p.next_slot + p.block_count }

/-- `Memory_Pool::Allocate()`: grow by one block if the free list is
empty, then pop the free-list head.  `none` is the case of a still-empty
free list after growth, which cannot occur for a pool whose constructor
accepted its `block_count` (see `Memory_Pool.make`). -/
def Memory_Pool.Allocate (p : Memory_Pool) : Option (Nat × Memory_Pool) :=
  let p1 := if p.free_list.isEmpty then p.Allocate_Block else p
  match p1.free_list with
  | [] => none
  | b :: rest => some (b, { p1 with free_list := rest })

/-- `Memory_Pool::Deallocate(T*)`: push the slot back onto the head of
the free list. -/
def Memory_Pool.Deallocate (p : Memory_Pool) (ptr : Nat) : Memory_Pool :=
  { p with free_list := ptr :: p.free_list }

/-- Pool-backed `BSTree_Allocator::Allocate(size_t n)`:
`if (n != 1) throw std::bad_alloc();` then `return pool_->Allocate();`. -/
def BSTree_Allocator.Allocate (p : Memory_Pool) (n : Nat) :
    Except AllocErr (Option (Nat × Memory_Pool)) :=
  if n ≠ 1 then Except.error AllocErr.invalidAllocationSize
  else Except.ok p.Allocate

/-- Pool-backed `BSTree_Allocator::Deallocate(T* p, size_t n)`:
`if (n == 1) pool_->Deallocate(p);` — a no-op for every other `n`. -/
def BSTree_Allocator.Deallocate (p : Memory_Pool) (ptr : Nat) (n : Nat) :
    Memory_Pool :=
  if n = 1 then p.Deallocate ptr else p

/-- Allocation from a pool whose constructor accepted its block count
(`block_count > 0`) always yields a slot: growth threads a non-empty
block onto the free list before the pop. -/
theorem Memory_Pool.Allocate_some {p : Memory_Pool} (hbc : 0 < p.block_count) :
    ∃ slot p2, p.Allocate = some (slot, p2) := by
  unfold Memory_Pool.Allocate
  cases hfl : p.free_list with
  | nil =>
    have hmap : (List.range p.block_count).map (fun i => p.next_slot + i) ≠ [] := by
      simp only [ne_eq, List.map_eq_nil_iff, List.range_eq_nil]
      omega
    obtain ⟨e, es, hes⟩ := List.exists_cons_of_ne_nil hmap
    simp [hfl, Memory_Pool.Allocate_Block, hes]
  | cons b rest => simp [hfl]

/-- Concrete default-constructed pool (`Memory_Pool()` with the default
`block_count = 64`). -/
def demoPool : Memory_Pool :=
  { free_list := [], next_slot := 0, block_count := 64 }

/-! ## Claims -/

/-- Claim C1 (code_bug evidence).  The claim says that after inserting a
value twice, one `Remove` retains the node (duplicate counter
decremented to 0) and `Search` stays `true`.  The code instead deletes
the node structurally on the first `Remove`: `count_` starts at 0 and
the keep branch requires `count_ > 1`, so a node holding two logical
occurrences (`count_ == 1`) is removed outright and both occurrences
vanish.  Evaluated here on the claim's own instance `v = 3`, `k = 2`. -/
theorem C1_duplicate_removed_too_early :
    BSTree.Search (BSTree.Remove (BSTree.Insert (BSTree.Insert initState 3) 3) 3) 3
      = false ∧
    (BSTree.Remove (BSTree.Insert (BSTree.Insert initState 3) 3) 3).root
      = Tree.nil := by
  constructor <;> rfl

/-- Claim C2 (code_bug evidence).  The two-children branch of `Remove`
is dead code behind an unconditional `return temp;`: on the claim's own
scenario (insert 5, 2, 8, 6, 9, then remove 5) the removed root has two
children, `temp` stays null, and the whole tree is replaced by null —
the in-order traversal becomes `[]`, not the claimed `[2, 6, 8, 9]`.
The first conjunct shows the tree before the removal is as the scenario
intends. -/
theorem C2_two_children_removal_drops_subtrees :
    inorderTree (buildState [5, 2, 8, 6, 9]).root = [2, 5, 6, 8, 9] ∧
    inorderTree (BSTree.Remove (buildState [5, 2, 8, 6, 9]) 5).root = [] := by
  constructor <;> rfl

/-- Claim C3 (code_bug evidence).  No version of `Insert` ever
increments `total_elements_count_`, so after one successful insert the
counter is 0, not inserts − removes = 1; and because `Remove` does
decrement it, removing that value underflows the `size_t` counter to
`2 ^ 64 - 1`. -/
theorem C3_insert_does_not_increment_total :
    (BSTree.Insert initState 5).total_elements_count = 0 ∧
    (BSTree.Remove (BSTree.Insert initState 5) 5).total_elements_count
      = sizeTMod - 1 := by
  constructor <;> rfl

/-- Claim C4 (code_bug evidence).  The claim says a descent deeper than
`MAX_DEPTH = 1000` aborts with the excessive-recursion error.  In the
version-2 source the recursive calls omit the `depth` argument, so it is
0 at every level and the guard `depth > MAX_DEPTH` never fires: for
every tree — including chains of any length built from strictly
increasing insertions — the guarded insert returns successfully, and
behaves exactly like the unguarded version-1 insertion. -/
theorem C4_depth_guard_never_fires (t : Tree) (value : Int) :
    insertNodeV2 t value 0 = Except.ok (insertNode t value) :=
  insertNodeV2_ok t value

/-- Claim C5, counterexample.  The claim says dereferencing an exhausted
iterator fails with an out-of-bounds condition.  On the concrete
exhausted iterator `begin()` of an empty tree, `operator*` does not
produce the out-of-range failure: its body `return current_->data_;`
has no check, so the access is an unchecked null dereference. -/
theorem C5_counterexample_deref_not_out_of_range :
    iterDeref (iterBegin Tree.nil) ≠ (IterAccess.outOfRange : IterAccess Int) := by
  decide

/-- Claim C5 as amended: advancing an exhausted iterator fails with the
out-of-range condition (`operator++` throws `std::out_of_range`), but
dereferencing it is an unchecked null-pointer dereference (undefined
behaviour) — `operator*` performs no check. -/
theorem C5_exhausted_iterator_access (it : TreeIter) (h : it.current = none) :
    iterDeref it = IterAccess.undefinedBehavior ∧
    iterNext it = IterAccess.outOfRange := by
  simp [iterDeref, iterNext, h]

/-- Witness for `C5_exhausted_iterator_access` at the exhausted iterator
`begin()` of the empty tree. -/
theorem C5_exhausted_iterator_access_witness :
    iterDeref (iterBegin Tree.nil) = IterAccess.undefinedBehavior ∧
    iterNext (iterBegin Tree.nil) = IterAccess.outOfRange :=
  C5_exhausted_iterator_access (iterBegin Tree.nil) rfl

/-- Claim C6 (confirmed).  Version-2 `Remove` checks
`if (!Search(value)) throw std::runtime_error(...)` before any
mutation: for every state and every absent value it fails with the
not-found error and returns the state exactly as it was. -/
theorem C6_remove_strict_on_absence (s : BSTreeState) (v : Int)
    (h : BSTree.Search s v = false) :
    BSTree.RemoveV2 s v = (s, some TreeErr.notFound) := by
  simp only [BSTree.Search] at h
  simp [BSTree.RemoveV2, h]

/-- Witness for `C6_remove_strict_on_absence`: removing the absent value
2 from the tree holding only 1. -/
theorem C6_remove_strict_on_absence_witness :
    BSTree.Search (buildState [1]) 2 = false ∧
    BSTree.RemoveV2 (buildState [1]) 2 = (buildState [1], some TreeErr.notFound) :=
  ⟨rfl, C6_remove_strict_on_absence (buildState [1]) 2 rfl⟩

/-- Claim C7 (confirmed).  Version-2 `Insert` throws
`std::invalid_argument` exactly on the sentinel (default) value `T()` —
`0` for `int` — before any mutation, leaving the tree unchanged; no
other value raises this error. -/
theorem C7_insert_rejects_sentinel (s : BSTreeState) (v : Int) :
    ((BSTree.InsertV2 s v).2 = some TreeErr.invalidArgument ↔ v = 0) ∧
    (v = 0 → (BSTree.InsertV2 s v).1 = s) := by
  refine ⟨⟨fun h => ?_, fun hv => by simp [BSTree.InsertV2, hv]⟩,
    fun hv => by simp [BSTree.InsertV2, hv]⟩
  by_contra hv
  simp [BSTree.InsertV2, hv, insertNodeV2_ok] at h

/-- Witness for `C7_insert_rejects_sentinel` at the empty tree and the
sentinel value 0. -/
theorem C7_insert_rejects_sentinel_witness :
    (BSTree.InsertV2 initState 0).2 = some TreeErr.invalidArgument ∧
    (BSTree.InsertV2 initState 0).1 = initState :=
  ⟨(C7_insert_rejects_sentinel initState 0).1.mpr rfl,
   (C7_insert_rejects_sentinel initState 0).2 rfl⟩

/-- Claim C8 (confirmed).  For every sequence of inserted values, the
iterator started at `begin()` and run to exhaustion yields a strictly
ascending sequence whose members are exactly the distinct inserted
values — each duplicate-holding node appears once — regardless of
insertion order. -/
theorem C8_iterator_yields_sorted_distinct (vs : List Int) :
    (iterSeq (buildState vs).root).Sorted (· < ·) ∧
    ∀ x : Int, x ∈ iterSeq (buildState vs).root ↔ x ∈ vs := by
  have hseq : iterSeq (buildState vs).root
      = inorderTree (vs.foldl insertNode Tree.nil) := by
    rw [buildState_root, iterSeq_eq_inorder]
  constructor
  · rw [hseq]
    exact sorted_inorder (bst_foldl_insertNode vs BSTinv.nil)
  · intro x
    rw [hseq, mem_foldl_insertNode]
    simp [inorderTree]

/-- Claim C9 (confirmed).  The pool-backed allocator is node-granularity
only: `Allocate(n)` with `n ≠ 1` fails with the invalid-allocation-size
error (no storage handed out), `Allocate(1)` pops a slot from the shared
pool (growing it when the free list is empty), and `Deallocate(ptr, n)`
pushes the slot back onto the pool's free list when `n = 1` and is a
no-op for every other `n`. -/
theorem C9_allocator_node_granularity (p : Memory_Pool) (ptr n : Nat) :
    (n ≠ 1 →
      BSTree_Allocator.Allocate p n = Except.error AllocErr.invalidAllocationSize) ∧
    (0 < p.block_count →
      ∃ slot p2, BSTree_Allocator.Allocate p 1 = Except.ok (some (slot, p2))) ∧
    BSTree_Allocator.Deallocate p ptr 1 = Memory_Pool.Deallocate p ptr ∧
    (n ≠ 1 → BSTree_Allocator.Deallocate p ptr n = p) := by
  refine ⟨fun h => by simp [BSTree_Allocator.Allocate, h], fun hbc => ?_,
    by simp [BSTree_Allocator.Deallocate], fun h => by simp [BSTree_Allocator.Deallocate, h]⟩
  obtain ⟨slot, p2, halloc⟩ := Memory_Pool.Allocate_some hbc
  exact ⟨slot, p2, by simp [BSTree_Allocator.Allocate, halloc]⟩

/-- Witness for `C9_allocator_node_granularity` on the default pool:
`Allocate(2)` fails, `Allocate(1)` yields a slot, `Deallocate` acts only
for `n = 1`. -/
theorem C9_allocator_node_granularity_witness :
    BSTree_Allocator.Allocate demoPool 2 = Except.error AllocErr.invalidAllocationSize ∧
    (∃ slot p2, BSTree_Allocator.Allocate demoPool 1 = Except.ok (some (slot, p2))) ∧
    BSTree_Allocator.Deallocate demoPool 7 1 = Memory_Pool.Deallocate demoPool 7 ∧
    BSTree_Allocator.Deallocate demoPool 7 2 = demoPool :=
  ⟨(C9_allocator_node_granularity demoPool 7 2).1 (by decide),
   (C9_allocator_node_granularity demoPool 7 2).2.1 (by decide),
   (C9_allocator_node_granularity demoPool 7 2).2.2.1,
   (C9_allocator_node_granularity demoPool 7 2).2.2.2 (by decide)⟩

/-- Claim C10 (confirmed).  `duplicate_elements_count_` is never updated
by any tree operation: it is 0 after default construction, copied
verbatim by the copy and move constructors, preserved by `Insert` and
`Remove` (versions 1 and 2; `Search` is const and touches no state), and
therefore stays 0 across every operation sequence on a
default-constructed tree. -/
theorem C10_duplicate_count_never_updated :
    (∀ (s : BSTreeState) (v : Int),
      (BSTree.Insert s v).duplicate_elements_count = s.duplicate_elements_count ∧
      (BSTree.Remove s v).duplicate_elements_count = s.duplicate_elements_count ∧
      (BSTree.InsertV2 s v).1.duplicate_elements_count = s.duplicate_elements_count ∧
      (BSTree.RemoveV2 s v).1.duplicate_elements_count = s.duplicate_elements_count) ∧
    (∀ s : BSTreeState,
      (BSTree.copyCtor s).duplicate_elements_count = s.duplicate_elements_count ∧
      (BSTree.moveCtor s).duplicate_elements_count = s.duplicate_elements_count) ∧
    initState.duplicate_elements_count = 0 ∧
    (∀ ops : List TreeOp, (runOps initState ops).duplicate_elements_count = 0) := by
  have hins : ∀ (s : BSTreeState) (v : Int),
      (BSTree.Insert s v).duplicate_elements_count = s.duplicate_elements_count := by
    intro s v; rfl
  have hrem : ∀ (s : BSTreeState) (v : Int),
      (BSTree.Remove s v).duplicate_elements_count = s.duplicate_elements_count := by
    intro s v; rfl
  refine ⟨fun s v => ⟨hins s v, hrem s v, ?_, ?_⟩,
    fun s => ⟨rfl, rfl⟩, rfl, ?_⟩
  · by_cases hv : v = 0
    · simp [BSTree.InsertV2, hv]
    · simp [BSTree.InsertV2, hv, insertNodeV2_ok]
  · by_cases hs : searchNode s.root v
    · simp [BSTree.RemoveV2, hs, hrem]
    · simp [BSTree.RemoveV2, hs]
  · have hrun : ∀ (ops : List TreeOp) (s : BSTreeState),
        (runOps s ops).duplicate_elements_count = s.duplicate_elements_count := by
      intro ops
      induction ops with
      | nil => intro s; rfl
      | cons op ops ih =>
        intro s
        cases op with
        | ins v =>
          simpa [runOps, List.foldl_cons, applyOp] using ih (BSTree.Insert s v)
        | rem v =>
          have := ih (BSTree.Remove s v)
          simpa [runOps, List.foldl_cons, applyOp, hrem] using this
    intro ops
    exact hrun ops initState

end BSTreeSpec
